import Mathlib

/-!
Verification development for `Batch_Spatial_Join.py`, a single-tool ArcGIS
toolbox script (`CoralGeoJoin.execute`).  The Python source is shallowly
embedded: pure per-layer operations (`change_spatial_reference`,
`delete_join_fields`, `change_join_field_names`, `coral_geo_join`) become Lean
functions on an explicit `Layer` value, the stateful `execute` body becomes
explicit state passing over a `St` record with an injectable engine-failure
oracle, and the recode/data-dictionary pass (the `SearchCursor`/`UpdateCursor`
loops) is modelled over an explicit column of cells.
-/

set_option maxRecDepth 4000

namespace BatchSpatialJoin

/-! ## Column cells for the recode pass

A cell of a string field as seen by the cursors: SQL null (`None` in Python),
a string value, or an integer written back by the recoder. -/

inductive Cell where
  | null : Cell
  | str : String → Cell
  | int : Nat → Cell
deriving DecidableEq, Repr

/-- Display of a cell in the data-dictionary log lines (Python `f"{key}"`:
`None` for null). -/
def cellText : Cell → String
  | Cell.null => "None"
  | Cell.str s => s
  | Cell.int n => toString n

/-! ### Python dict, embedded as an insertion-ordered association list -/

/-- Lookup in an insertion-ordered association list (Python `d[k]` /
`k in d`). -/
def dLookup (m : List (Cell × Nat)) (c : Cell) : Option Nat :=
  match m with
  | [] => none
  | (k, v) :: rest => if k = c then some v else dLookup rest c

/-- Assignment `d[k] = v` on a Python dict: overwrite in place if the key is
present (keeping its position), otherwise append. -/
def dInsert (m : List (Cell × Nat)) (c : Cell) (v : Nat) : List (Cell × Nat) :=
  match m with
  | [] => [(c, v)]
  | (k, w) :: rest => if k = c then (k, v) :: rest else (k, w) :: dInsert rest c v

/-! ### First pass: `SearchCursor` loop (source lines 271-280)

Accumulates the distinct values of the column; abandons the field as soon as
more than 6 distinct values have been seen. -/

/-- One step of `if row[0] not in unique_attributes: unique_attributes.append(row[0])`. -/
def addDistinct (acc : List Cell) (r : Cell) : List Cell :=
  if r ∈ acc then acc else acc ++ [r]

/-- The `SearchCursor` scan: returns the accumulated distinct values, or
`none` when the count ever exceeds 6 (the `break` that empties
`string_fields`). -/
def firstPass : List Cell → List Cell → Option (List Cell)
  | [], acc => some acc
  | r :: rs, acc =>
    let acc' := addDistinct acc r
    if acc'.length > 6 then none else firstPass rs acc'

/-! ### Second pass: `UpdateCursor` loop (source lines 283-296) -/

/-- The `UpdateCursor` rewrite: state is the `attributes` dict and the counter
`i`; returns the rewritten column together with the final dict.  A null row is
written as the literal string `'0'` and recorded as code `0`; an unseen
non-null value is assigned the current counter; a seen value is written as its
stored code. -/
def secondPass : List Cell → List (Cell × Nat) → Nat → List Cell × List (Cell × Nat)
  | [], m, _ => ([], m)
  | r :: rs, m, i =>
    match r with
    | Cell.null =>
      let res := secondPass rs (dInsert m Cell.null 0) i
      (Cell.str "0" :: res.1, res.2)
    | r =>
      match dLookup m r with
      | none =>
        let res := secondPass rs (dInsert m r i) (i + 1)
        (Cell.int i :: res.1, res.2)
      | some v =>
        let res := secondPass rs m i
        (Cell.int v :: res.1, res.2)

/-- The full per-field block of the recode pass (source lines 268-301) for one
field name and its column: returns the (possibly rewritten) column, the
`attributes` dict when the rewrite ran, and the emitted log lines (the
diagnostic on abandonment, or the field name, dictionary lines and separator
on success). -/
def recodeFieldRun (fname : String) (rows : List Cell) :
    List Cell × Option (List (Cell × Nat)) × List String :=
  match firstPass rows [] with
  | none =>
    (rows, none,
      [fname ++ " has more than 6 unique attributes. " ++ fname ++ " removed from list "])
  | some _ =>
    let res := secondPass rows [] 1
    (res.1, some res.2,
      [fname] ++ res.2.map (fun p => "     " ++ cellText p.1 ++ ":" ++ toString p.2)
        ++ ["---------------"])

/-- The column rewrite and dict of the recode pass, without the log lines. -/
def recodeField (rows : List Cell) : List Cell × Option (List (Cell × Nat)) :=
  ((recodeFieldRun "" rows).1, (recodeFieldRun "" rows).2.1)

/-! ### Specification-side descriptions of the recode pass -/

/-- All distinct cells of a list, in order of first encounter, continuing from
an accumulator. -/
def distinctFrom (acc : List Cell) : List Cell → List Cell
  | [] => acc
  | r :: rs => distinctFrom (addDistinct acc r) rs

/-- All distinct cells of a column, in order of first encounter. -/
def distinctVals (rows : List Cell) : List Cell := distinctFrom [] rows

/-- The non-null cells of a list, keeping order. -/
def nnOf (l : List Cell) : List Cell := l.filter (fun c => !(c == Cell.null))

/-- The distinct non-null values of a column in order of first encounter. -/
def nnDistinct (rows : List Cell) : List Cell := nnOf (distinctVals rows)

/-- Index of the first occurrence of a cell in a list. -/
def idxOfC (c : Cell) : List Cell → Nat
  | [] => 0
  | x :: xs => if x = c then 0 else idxOfC c xs + 1

/-- The integer code the recoder assigns to a distinct value: null gets `0`,
the `k`-th distinct non-null value (first-seen order) gets `k + 1`. -/
def cellDictCode (nns : List Cell) (c : Cell) : Nat :=
  if c = Cell.null then 0 else idxOfC c nns + 1

/-- The dict the recoder builds, described directly: the distinct values in
first-seen order, each paired with its code. -/
def modelMapOf (D nns : List Cell) : List (Cell × Nat) :=
  D.map (fun c => (c, cellDictCode nns c))

/-- The final `attributes` dict of a successful recode of a column. -/
def modelMap (rows : List Cell) : List (Cell × Nat) :=
  modelMapOf (distinctVals rows) (nnDistinct rows)

/-- The cell the recoder writes back for a given original cell: the literal
string `"0"` for null, the integer code for a non-null value. -/
def codeOfCell (rows : List Cell) (c : Cell) : Cell :=
  if c = Cell.null then Cell.str "0" else Cell.int (idxOfC c (nnDistinct rows) + 1)

/-! ## Fields and layers -/

/-- A field of a feature class: its name and its type string (`field.type` in
arcpy, e.g. `"String"`). -/
structure Field where
  name : String
  ftype : String
deriving DecidableEq, Repr

/-- A feature layer: base name (the path's last component), spatial-reference
WKID (`spatialReference.factoryCode`), shape type, and schema. -/
structure Layer where
  name : String
  wkid : Int
  shapeType : String
  fields : List Field
deriving DecidableEq, Repr

/-- Python substring containment `needle in hay` on strings. -/
def strIn (needle hay : String) : Bool :=
  (List.range (hay.data.length + 1)).any
    (fun i => decide ((hay.data.drop i).take needle.data.length = needle.data))

/-- Substring containment as a proposition. -/
def SubstrOf (needle hay : String) : Prop :=
  ∃ i, (hay.data.drop i).take needle.data.length = needle.data

/-- Splitting a list of characters at every `';'`. -/
def splitChars : List Char → List (List Char)
  | [] => [[]]
  | c :: cs =>
    if c = ';' then [] :: splitChars cs
    else
      match splitChars cs with
      | [] => [[c]]
      | h :: t => (c :: h) :: t

/-- The entries of a semicolon-delimited multivalue parameter text, as the
claims read it: a list of selected entries. -/
def splitSemis (s : String) : List String :=
  (splitChars s.data).map (fun l => String.mk l)

/-- The four reserved system field names skipped by the renamer and by the
parameter-population code. -/
def isSystemName (n : String) : Bool :=
  n == "OBJECTID" || n == "Shape" || n == "Shape_Length" || n == "Shape_Area"

/-! ## The per-layer helper functions of `execute` -/

/-- `change_spatial_reference` (source lines 160-169): when the layer's WKID
differs from the target's, `arcpy.management.Project` creates a projected copy
in the scratch geodatabase named `<basename>_`; the function returns that
copy's path, else the layer itself.  First component: the returned layer;
second: the layer created in the scratch workspace, when any. -/
def change_spatial_reference (coralWKID : Int) (fc : Layer) : Layer × Option Layer :=
  if coralWKID ≠ fc.wkid then
    let proj : Layer := { fc with name := fc.name ++ "_", wkid := coralWKID }
    (proj, some proj)
  else (fc, none)

/-- `delete_join_fields` (source lines 172-182): when the parameter text is
`None` the layer is returned unchanged; otherwise every field whose name
satisfies Python's `field_name in delete` — substring containment, since
`delete` is the parameter's text — is deleted. -/
def delete_join_fields (fields : List Field) (del : Option String) : List Field :=
  match del with
  | none => fields
  | some d => fields.filter (fun f => !(strIn f.name d))

/-- The new name the renamer builds (source lines 196-201):
`feature_name + field_name`, truncated to its last 30 characters when longer
than 31 (`newName[extra_characters:]` with `extra_characters = len - 30`). -/
def newFieldName (featureName fieldName : String) : String :=
  let nn := featureName ++ fieldName
  if nn.length > 31 then String.mk (nn.data.drop (nn.length - 30)) else nn

/-- `change_join_field_names` (source lines 186-206): renames every
non-system field to `newFieldName` and collects the new names of the
`String`-typed renamed fields (the `joinFields_str` appends), in field
order. -/
def change_join_field_names (layerName : String) : List Field → List Field × List String
  | [] => ([], [])
  | f :: fs =>
    if isSystemName f.name then
      let res := change_join_field_names layerName fs
      (f :: res.1, res.2)
    else
      let nn := newFieldName layerName f.name
      let res := change_join_field_names layerName fs
      (⟨nn, f.ftype⟩ :: res.1,
        if f.ftype == "String" then nn :: res.2 else res.2)

/-- Modelled from the spec: the schema produced by `arcpy.analysis.SpatialJoin`
(an external host-engine operation, not code of this repository) — the
target's fields, the join feature's non-system attribute fields, and the two
bookkeeping fields `Join_Count` and `TARGET_FID`. -/
def spatialJoinFields (tgt joinF : List Field) : List Field :=
  tgt ++ joinF.filter (fun f => !(isSystemName f.name))
    ++ [⟨"Join_Count", "Long"⟩, ⟨"TARGET_FID", "Long"⟩]

/-- The `DeleteField` call of `coral_geo_join` (source line 216): drops the
bookkeeping fields `Join_Count` and `TARGET_FID`. -/
def removeBookkeeping (fs : List Field) : List Field :=
  fs.filter (fun f => !(f.name == "Join_Count" || f.name == "TARGET_FID"))

/-- The fresh scratch layer created by `arcpy.analysis.SpatialJoin` inside
`coral_geo_join`, before the bookkeeping deletion. -/
def spatialJoinLayer (tgt fc : Layer) (k : Nat) : Layer :=
  { name := "tempCoralJoin" ++ toString k, wkid := tgt.wkid, shapeType := tgt.shapeType,
    fields := spatialJoinFields tgt.fields fc.fields }

/-- `coral_geo_join` (source lines 209-217) as a value: the scratch join
output after the bookkeeping fields are deleted. -/
def coral_geo_join (tgt fc : Layer) (k : Nat) : Layer :=
  { spatialJoinLayer tgt fc k with
      fields := removeBookkeeping (spatialJoinLayer tgt fc k).fields }

/-! ## The `execute` pipeline, with an injectable engine-failure oracle -/

/-- An exception raised inside the `try` body: a geoprocessing
`arcpy.ExecuteError` from the engine, or `SystemExit` raised by the early
`sys.exit()` aborts (caught by the bare `except:`). -/
inductive Exc where
  | engine : Exc
  | sysExit : Exc
deriving DecidableEq, Repr

/-- The run's observable state: the scratch-workspace contents, the running
target (`corals_input` as reassigned by the loop), the written output, error
and progress messages, logs of the `Project` calls and of the layers passed as
join features to `SpatialJoin`, a count of field-modification operations, the
collected `joinFields_str`, and engine bookkeeping counters. -/
structure St where
  scratch : List Layer
  target : Layer
  output : Option Layer
  errors : List String
  msgs : List String
  joinLog : List Layer
  projectLog : List Layer
  fieldOps : Nat
  joinStrs : List String
  opCount : Nat
  scratchCounter : Nat
deriving DecidableEq, Repr

/-- The tool's parameters as read at source lines 127-131. -/
structure Params where
  workspaceLayers : List Layer
  workspaceIsGdb : Bool
  coralsInput : Layer
  fieldsToDelete : Option String
  updateFields : Option String

/-- The host environment: whether the Spatial Analyst extension is available,
and an oracle saying which engine operations (numbered in call order) raise an
`arcpy.ExecuteError`. -/
structure Env where
  extAvailable : Bool
  failsAt : Nat → Bool

/-- Run one engine operation: it either raises (per the oracle) leaving the
state unchanged, or applies its state update. -/
def runOp (env : Env) (st : St) (f : St → St) : St × Option Exc :=
  if env.failsAt st.opCount then
    ({ st with opCount := st.opCount + 1 }, some Exc.engine)
  else
    ({ f st with opCount := st.opCount + 1 }, none)

/-- Add a layer to the scratch workspace. -/
def addScratch (st : St) (l : Layer) : St :=
  { st with scratch := st.scratch ++ [l] }

/-- Replace the scratch-workspace layer of a given name by an updated value
(an in-place mutation such as `DeleteField` or `AlterField`). -/
def updScratch (st : St) (n : String) (l : Layer) : St :=
  { st with scratch := st.scratch.map (fun x => if x.name == n then l else x) }

/-- One iteration of the join loop (source lines 234-256).  Note that
`change_spatial_reference`'s return value is discarded exactly as at source
line 242: processing continues on `fc0`, not on the projected copy. -/
def processFeature (env : Env) (isGdb : Bool) (coralWKID : Int) (del : Option String)
    (fc0 : Layer) (st0 : St) : St × Option Exc :=
  if fc0.shapeType == "Polygon" then
    let step1 : St × Option Exc :=
      if isGdb then runOp env st0 (fun s => addScratch s fc0) else (st0, none)
    match step1 with
    | (st1, some e) => (st1, some e)
    | (st1, none) =>
      let csr := change_spatial_reference coralWKID fc0
      let step2 : St × Option Exc :=
        match csr.2 with
        | some proj => runOp env st1 (fun s =>
            { addScratch s proj with projectLog := s.projectLog ++ [proj] })
        | none => (st1, none)
      match step2 with
      | (st2, some e) => (st2, some e)
      | (st2, none) =>
        let fc1 : Layer := { fc0 with fields := delete_join_fields fc0.fields del }
        match runOp env st2 (fun s =>
            { updScratch s fc0.name fc1 with fieldOps := s.fieldOps + 1 }) with
        | (st3, some e) => (st3, some e)
        | (st3, none) =>
          let rn := change_join_field_names fc1.name fc1.fields
          let fc2 : Layer := { fc1 with fields := rn.1 }
          match runOp env st3 (fun s =>
              { updScratch s fc1.name fc2 with
                  fieldOps := s.fieldOps + 1, joinStrs := s.joinStrs ++ rn.2 }) with
          | (st4, some e) => (st4, some e)
          | (st4, none) =>
            match runOp env st4 (fun s =>
                let joined := spatialJoinLayer s.target fc2 s.scratchCounter
                { addScratch s joined with
                    joinLog := s.joinLog ++ [fc2],
                    target := joined,
                    scratchCounter := s.scratchCounter + 1 }) with
            | (st5, some e) => (st5, some e)
            | (st5, none) =>
              runOp env st5 (fun s =>
                let cleaned : Layer :=
                  { s.target with fields := removeBookkeeping s.target.fields }
                { updScratch s s.target.name cleaned with target := cleaned })
  else (st0, none)

/-- The join loop over all listed polygon features, stopping at the first
raised exception. -/
def loopFeatures (env : Env) (isGdb : Bool) (coralWKID : Int) (del : Option String) :
    List Layer → St → St × Option Exc
  | [], st => (st, none)
  | fc :: rest, st =>
    match processFeature env isGdb coralWKID del fc st with
    | (st', none) => loopFeatures env isGdb coralWKID del rest st'
    | r => r

/-- The shapefile-to-geodatabase conversion loop (source lines 222-226):
copies each polygon layer into the scratch geodatabase. -/
def copyAll (env : Env) : List Layer → St → St × Option Exc
  | [], st => (st, none)
  | l :: ls, st =>
    match runOp env st (fun s => addScratch s l) with
    | (st', none) => copyAll env ls st'
    | r => r

/-- The engine operations of the recode pass (source lines 263-303): one
cursor pair per collected string field; at the schema level these touch no
layer (their value-level behaviour is `recodeFieldRun`). -/
def recodePassOps (env : Env) : List String → St → St × Option Exc
  | [], st => (st, none)
  | _ :: fs, st =>
    match runOp env st (fun s => s) with
    | (st', none) => recodePassOps env fs st'
    | r => r

/-- The initial state of a run. -/
def initSt (p : Params) : St :=
  { scratch := [], target := p.coralsInput, output := none, errors := [], msgs := [],
    joinLog := [], projectLog := [], fieldOps := 0, joinStrs := [],
    opCount := 0, scratchCounter := 0 }

/-- Python exception sequencing: run the continuation only when no exception
has been raised so far. -/
def seqE (r : St × Option Exc) (f : St → St × Option Exc) : St × Option Exc :=
  match r with
  | (s, none) => f s
  | (s, some e) => (s, some e)

/-- The body of the `try` block of `execute` (source lines 124-303): preflight
checks, optional shapefile conversion, the join loop, the final
`CopyFeatures` to the output path, and the recode pass. -/
def executeBody (env : Env) (p : Params) : St × Option Exc :=
  let st0 := initSt p
  let features := p.workspaceLayers.filter (fun l => l.shapeType == "Polygon")
  if !env.extAvailable then
    ({ st0 with
        errors := st0.errors ++ ["ArcGIS Spatial Analyst extension is not available"] },
      some Exc.sysExit)
  else if features.length = 0 then
    ({ st0 with
        errors := st0.errors ++ ["There are no polygon features in the workspace."] },
      some Exc.sysExit)
  else
    seqE (if p.workspaceIsGdb then (st0, none) else copyAll env features st0) (fun stc =>
      let feats := if p.workspaceIsGdb then features
        else stc.scratch.filter (fun l => l.shapeType == "Polygon")
      seqE (loopFeatures env p.workspaceIsGdb p.coralsInput.wkid p.fieldsToDelete feats stc)
        (fun stl =>
          seqE (runOp env stl (fun s => { s with output := some s.target })) (fun sto =>
            if p.updateFields == some "Yes" then recodePassOps env sto.joinStrs sto
            else (sto, none))))

/-- The overall outcome reported to the host. -/
inductive Outcome where
  | ok : Outcome
  | geoprocessingError : Outcome
  | pythonError : Outcome
deriving DecidableEq, Repr

/-- The `finally` block (source lines 330-336): list the scratch workspace's
feature classes and delete each listed one. -/
def deleteEach (names : List String) (scratch : List Layer) : List Layer :=
  names.foldl (fun sc n => sc.filter (fun l => !(l.name == n))) scratch

/-- Apply the `finally` cleanup to a state. -/
def cleanup (st : St) : St :=
  { st with scratch := deleteEach (st.scratch.map Layer.name) st.scratch }

/-- `execute` in full: the `try` body, the two `except` handlers (which log
and swallow the exception), and the `finally` cleanup that always runs. -/
def execute (env : Env) (p : Params) : St × Outcome :=
  match executeBody env p with
  | (st, none) => (cleanup st, Outcome.ok)
  | (st, some Exc.engine) =>
    (cleanup { st with errors := st.errors ++ ["arcpy ExecuteError"] },
      Outcome.geoprocessingError)
  | (st, some Exc.sysExit) =>
    (cleanup { st with errors := st.errors ++ ["PYTHON ERRORS"] },
      Outcome.pythonError)

/-! ## The output table for the recode pass's frame properties -/

/-- The output feature class as a table: field name paired with its column. -/
abbrev Table := List (String × List Cell)

/-- The column of a named field, scanning in order. -/
def colOf (tbl : Table) (f : String) : Option (List Cell) :=
  match tbl with
  | [] => none
  | (n, c) :: rest => if n = f then some c else colOf rest f

/-- Replace the column of a named field. -/
def setCol (tbl : Table) (f : String) (col : List Cell) : Table :=
  tbl.map (fun p => if p.1 = f then (p.1, col) else p)

/-- The cursor pair of the recode pass for one field of the output table. -/
def recodeStep (tbl : Table) (f : String) : Table :=
  match colOf tbl f with
  | none => tbl
  | some col => setCol tbl f (recodeField col).1

/-- The whole recode pass over the output table (source lines 263-303): runs
only when the update-fields parameter text is `"Yes"`, and then only over the
collected `joinFields_str` names. -/
def updateFieldsPass (upd : Option String) (joinStrs : List String) (tbl : Table) : Table :=
  if upd = some "Yes" then joinStrs.foldl recodeStep tbl else tbl

/-! ## Substring containment -/

theorem strIn_iff (needle hay : String) : strIn needle hay = true ↔ SubstrOf needle hay := by
  unfold strIn SubstrOf
  rw [List.any_eq_true]
  constructor
  · rintro ⟨i, _, h⟩
    exact ⟨i, of_decide_eq_true h⟩
  · rintro ⟨i, h⟩
    by_cases hi : i < hay.data.length + 1
    · exact ⟨i, List.mem_range.mpr hi, decide_eq_true h⟩
    · refine ⟨hay.data.length, List.mem_range.mpr (Nat.lt_succ_self _), decide_eq_true ?_⟩
      have hdrop : hay.data.drop i = [] := List.drop_eq_nil_of_le (by omega)
      have hnil : needle.data = [] := by
        rw [hdrop] at h
        simpa using h.symm
      simp [List.drop_eq_nil_of_le (Nat.le_refl hay.data.length), hnil]

/-- C2 (amended): the field-deletion step leaves the layer unchanged when the
deletion parameter is `None`; otherwise a field survives if and only if its
name is not a substring of the parameter's text value (the semicolon-joined
selected entries) — Python's `field_name in delete` is substring containment
on the text, not membership in the entry list. -/
theorem C2_delete_semantics :
    (∀ fields, delete_join_fields fields none = fields)
  ∧ (∀ d fields f, f ∈ delete_join_fields fields (some d) ↔
      f ∈ fields ∧ ¬ SubstrOf f.name d) := by
  constructor
  · intro fields; rfl
  · intro d fields f
    simp only [delete_join_fields, List.mem_filter, Bool.not_eq_true']
    rw [← strIn_iff]
    simp

/-- C2 counterexample: with the deletion parameter text `"AB"` — denoting the
single-entry selection list `["AB"]` — the field named `"A"` is deleted even
though `"A"` is not one of the supplied entries, because `"A"` is a substring
of the text. -/
theorem C2_counterexample :
    delete_join_fields [⟨"A", "String"⟩] (some "AB") = []
  ∧ ((splitSemis "AB").contains "A") = false
  ∧ splitSemis "AB" = ["AB"] := by
  refine ⟨by decide, by decide, by decide⟩

/-! ## The renamer -/

/-- The renamer's action on one field: reserved system fields are kept,
every other field gets `newFieldName`. -/
def renameOne (layerName : String) (f : Field) : Field :=
  if isSystemName f.name then f else ⟨newFieldName layerName f.name, f.ftype⟩

theorem change_join_field_names_fst (layerName : String) (fields : List Field) :
    (change_join_field_names layerName fields).1 = fields.map (renameOne layerName) := by
  induction fields with
  | nil => rfl
  | cons f fs ih =>
    by_cases h : isSystemName f.name
    · simp [change_join_field_names, renameOne, h, ih]
    · simp [change_join_field_names, renameOne, h, ih]

theorem string_length_data (s : String) : s.length = s.data.length := rfl

/-- C3: for a non-reserved field the renamer builds `layer_name ++ field_name`
unchanged when the concatenation has at most 31 characters, and otherwise
keeps exactly its last 30 characters (the dropped part is the front);
reserved system fields are left unrenamed. -/
theorem C3_rename_spec (layerName fieldName : String) :
    (∀ fields, (change_join_field_names layerName fields).1 =
        fields.map (renameOne layerName))
  ∧ (∀ f : Field, isSystemName f.name = true → renameOne layerName f = f)
  ∧ (∀ f : Field, isSystemName f.name = false →
        renameOne layerName f = ⟨newFieldName layerName f.name, f.ftype⟩)
  ∧ ((layerName ++ fieldName).length ≤ 31 →
        newFieldName layerName fieldName = layerName ++ fieldName)
  ∧ ((layerName ++ fieldName).length > 31 →
        (newFieldName layerName fieldName).length = 30 ∧
        (layerName ++ fieldName).data =
          (layerName ++ fieldName).data.take ((layerName ++ fieldName).length - 30)
            ++ (newFieldName layerName fieldName).data) := by
  refine ⟨change_join_field_names_fst layerName, ?_, ?_, ?_, ?_⟩
  · intro f h; simp [renameOne, h]
  · intro f h; simp [renameOne, h]
  · intro h
    unfold newFieldName
    rw [if_neg (by omega)]
  · intro h
    unfold newFieldName
    rw [if_pos (by omega)]
    constructor
    · rw [string_length_data] at h ⊢
      simp only [String.length_mk, List.length_drop]
      rw [string_length_data]
      have := h
      simp only [String.data_append, List.length_append] at this ⊢
      omega
    · conv_lhs => rw [← List.take_append_drop ((layerName ++ fieldName).length - 30)
        (layerName ++ fieldName).data]

/-- C3 witness: a concrete short rename and a concrete long rename. -/
theorem C3_rename_spec_witness :
    newFieldName "reef" "NAME" = "reefNAME"
  ∧ (newFieldName "A" "0123456789012345678901234567890").length = 30 := by
  constructor
  · exact (C3_rename_spec "reef" "NAME").2.2.2.1 (by decide)
  · exact ((C3_rename_spec "A" "0123456789012345678901234567890").2.2.2.2 (by decide)).1

/-! ## Field-name length and (non-)uniqueness -/

theorem newFieldName_length_le (ln fn : String) : (newFieldName ln fn).length ≤ 31 := by
  unfold newFieldName
  by_cases h : (ln ++ fn).length > 31
  · rw [if_pos h]
    have hd : (ln ++ fn).length = (ln ++ fn).data.length := rfl
    simp only [String.length_mk, List.length_drop]
    omega
  · rw [if_neg h]
    omega

/-- C6 (amended): every field name produced by the rename step is at most 31
characters long (renamed fields by truncation, reserved fields because the
four reserved names are short); but uniqueness of the output's field names is
not guaranteed — see the counterexample, where two layers produce the same
truncated name. -/
theorem C6_rename_length_bound :
    (∀ ln fn, (newFieldName ln fn).length ≤ 31)
  ∧ (∀ layerName fields (f : Field),
      f ∈ (change_join_field_names layerName fields).1 → f.name.length ≤ 31) := by
  refine ⟨newFieldName_length_le, ?_⟩
  intro layerName fields f hf
  rw [change_join_field_names_fst] at hf
  obtain ⟨g, hg, rfl⟩ := List.mem_map.mp hf
  unfold renameOne
  by_cases h : isSystemName g.name
  · rw [if_pos h]
    simp only [isSystemName, Bool.or_eq_true, beq_iff_eq] at h
    rcases h with ((h | h) | h) | h <;> rw [h] <;> decide
  · rw [if_neg h]
    exact newFieldName_length_le layerName g.name

/-- C6 witness: the bound applied to a concrete over-long rename. -/
theorem C6_rename_length_bound_witness :
    (newFieldName "Alpha" "0123456789012345678901234567890").length ≤ 31 :=
  C6_rename_length_bound.1 "Alpha" "0123456789012345678901234567890"

/-- A 31-character field name shared by two differently named layers. -/
def longSharedField : String := "0123456789012345678901234567890"

def uniqTarget : Layer := ⟨"corals", 4326, "Point", []⟩

def uniqLayerA : Layer := ⟨"A", 4326, "Polygon", [⟨longSharedField, "String"⟩]⟩

def uniqLayerB : Layer := ⟨"B", 4326, "Polygon", [⟨longSharedField, "String"⟩]⟩

def uniqEnv : Env := ⟨true, fun _ => false⟩

def uniqParams : Params := ⟨[uniqLayerA, uniqLayerB], true, uniqTarget, none, none⟩

/-- C6 counterexample: layers `A` and `B` each carry the same 31-character
field; truncation drops the layer-name prefix, both renames collide, and the
final output layer's field names are not unique. -/
theorem C6_counterexample :
    newFieldName "A" longSharedField = newFieldName "B" longSharedField
  ∧ (decide ((((execute uniqEnv uniqParams).1.output.getD uniqTarget).fields.map
      Field.name).Nodup)) = false := by
  refine ⟨by decide, by decide⟩

/-! ## Cleanup always empties the scratch workspace (C8) -/

theorem deleteEach_mem : ∀ (ns : List String) (sc : List Layer) (l : Layer),
    l ∈ deleteEach ns sc → l ∈ sc ∧ l.name ∉ ns := by
  intro ns
  induction ns with
  | nil =>
    intro sc l h
    exact ⟨h, by simp⟩
  | cons n ns ih =>
    intro sc l h
    have h' : l ∈ deleteEach ns (sc.filter (fun x => !(x.name == n))) := h
    obtain ⟨h1, h2⟩ := ih _ l h'
    rw [List.mem_filter] at h1
    refine ⟨h1.1, ?_⟩
    intro hm
    rcases List.mem_cons.mp hm with he | hm'
    · have := h1.2
      rw [he] at this
      simp at this
    · exact h2 hm'

theorem deleteEach_map_name (sc : List Layer) : deleteEach (sc.map Layer.name) sc = [] := by
  rw [List.eq_nil_iff_forall_not_mem]
  intro l hl
  obtain ⟨h1, h2⟩ := deleteEach_mem _ _ _ hl
  exact h2 (List.mem_map_of_mem Layer.name h1)

/-- C8: on every exit path of a run — normal completion, a geoprocessing
error raised by any engine operation, or the `sys.exit()` aborts — the
`finally` cleanup executes, deleting every listed scratch layer, so the final
scratch workspace is empty.  The environment quantifies over arbitrary
injected engine failures, covering all exit paths of the `try` body. -/
theorem C8_cleanup_empties_scratch (env : Env) (p : Params) :
    (execute env p).1.scratch = [] := by
  unfold execute
  rcases hb : executeBody env p with ⟨st, e⟩
  cases e with
  | none => simp [cleanup, deleteEach_map_name]
  | some ex => cases ex <;> simp [cleanup, deleteEach_map_name]

/-! ## Preflight aborts (C9) -/

/-- C9: when the Spatial Analyst extension is unavailable, or the workspace
lists no polygon feature class, the run stops with an error before any
projection, field modification or join, and produces no output layer. -/
theorem C9_preflight_aborts (env : Env) (p : Params)
    (h : env.extAvailable = false ∨
      p.workspaceLayers.filter (fun l => l.shapeType == "Polygon") = []) :
    (execute env p).2 = Outcome.pythonError
  ∧ (execute env p).1.output = none
  ∧ (execute env p).1.joinLog = []
  ∧ (execute env p).1.projectLog = []
  ∧ (execute env p).1.fieldOps = 0
  ∧ (execute env p).1.errors ≠ [] := by
  rcases h with h | h
  · simp [execute, executeBody, h, initSt, cleanup, deleteEach]
  · by_cases hext : env.extAvailable
    · simp [execute, executeBody, hext, h, initSt, cleanup, deleteEach]
    · simp [execute, executeBody, hext, initSt, cleanup, deleteEach]

def noExtEnv : Env := ⟨false, fun _ => false⟩

def noExtParams : Params := ⟨[], true, uniqTarget, none, none⟩

/-- C9 witness: a run without the extension ends in the generic error path
with no output. -/
theorem C9_preflight_aborts_witness :
    (execute noExtEnv noExtParams).2 = Outcome.pythonError
  ∧ (execute noExtEnv noExtParams).1.output = none := by
  have h := C9_preflight_aborts noExtEnv noExtParams (Or.inl rfl)
  exact ⟨h.1, h.2.1⟩

/-! ## Frame property of the recode pass (C10) -/

theorem colOf_setCol_ne (f g : String) (col : List Cell) (h : g ≠ f) :
    ∀ tbl : Table, colOf (setCol tbl f col) g = colOf tbl g := by
  intro tbl
  induction tbl with
  | nil => rfl
  | cons p rest ih =>
    rcases p with ⟨n, c⟩
    simp only [setCol, List.map_cons]
    by_cases hn : n = f
    · rw [if_pos hn]
      have hg : ¬(n = g) := fun e => h (e ▸ hn ▸ rfl)
      show colOf ((n, col) :: List.map _ rest) g = colOf ((n, c) :: rest) g
      rw [colOf, colOf, if_neg hg, if_neg hg]
      exact ih
    · rw [if_neg hn]
      show colOf ((n, c) :: List.map _ rest) g = colOf ((n, c) :: rest) g
      rw [colOf, colOf]
      by_cases hg : n = g
      · rw [if_pos hg, if_pos hg]
      · rw [if_neg hg, if_neg hg]
        exact ih

theorem colOf_recodeStep_ne (tbl : Table) (f g : String) (h : g ≠ f) :
    colOf (recodeStep tbl f) g = colOf tbl g := by
  unfold recodeStep
  cases hc : colOf tbl f with
  | none => rfl
  | some col => exact colOf_setCol_ne f g _ h tbl

theorem colOf_foldl_recode : ∀ (js : List String) (tbl : Table) (g : String),
    g ∉ js → colOf (js.foldl recodeStep tbl) g = colOf tbl g := by
  intro js
  induction js with
  | nil => intro tbl g _; rfl
  | cons j js ih =>
    intro tbl g hg
    have h1 : g ≠ j := fun e => hg (e ▸ List.mem_cons_self j js)
    have h2 : g ∉ js := fun e => hg (List.mem_cons_of_mem j e)
    simp only [List.foldl_cons]
    rw [ih _ _ h2, colOf_recodeStep_ne _ _ _ h1]

theorem change_join_field_names_snd (layerName : String) (fields : List Field) :
    (change_join_field_names layerName fields).2 =
      (fields.filter (fun f => !(isSystemName f.name) && f.ftype == "String")).map
        (fun f => newFieldName layerName f.name) := by
  induction fields with
  | nil => rfl
  | cons f fs ih =>
    by_cases h : isSystemName f.name
    · simp [change_join_field_names, h, ih]
    · by_cases hs : f.ftype = "String"
      · simp [change_join_field_names, h, hs, ih]
      · simp [change_join_field_names, h, hs, ih]

/-- C10: the recode pass runs only when the update-fields parameter text is
`"Yes"` (otherwise the output table is untouched), and it rewrites only the
columns named in `joinFields_str` — every other column is unchanged; and
`joinFields_str` is exactly the new names of the non-system `String`-typed
fields collected during renaming. -/
theorem C10_recode_frame :
    (∀ upd js tbl, upd ≠ some "Yes" → updateFieldsPass upd js tbl = tbl)
  ∧ (∀ js tbl g, g ∉ js →
      colOf (updateFieldsPass (some "Yes") js tbl) g = colOf tbl g)
  ∧ (∀ layerName fields, (change_join_field_names layerName fields).2 =
      (fields.filter (fun f => !(isSystemName f.name) && f.ftype == "String")).map
        (fun f => newFieldName layerName f.name)) := by
  refine ⟨?_, ?_, change_join_field_names_snd⟩
  · intro upd js tbl h
    unfold updateFieldsPass
    rw [if_neg h]
  · intro js tbl g hg
    unfold updateFieldsPass
    rw [if_pos rfl]
    exact colOf_foldl_recode js tbl g hg

/-- C10 witness: a column not named in `joinFields_str` survives the pass
unchanged. -/
theorem C10_recode_frame_witness :
    colOf (updateFieldsPass (some "Yes") ["A"] [("B", [Cell.null])]) "B"
      = some [Cell.null] := by
  have h := C10_recode_frame.2.1 ["A"] [("B", [Cell.null])] "B" (by decide)
  rw [h]
  rfl

/-! ## The first recode pass: distinct-value scan (C5) -/

theorem distinctFrom_suffix : ∀ (rs acc : List Cell), ∃ w, distinctFrom acc rs = acc ++ w := by
  intro rs
  induction rs with
  | nil => intro acc; exact ⟨[], by simp [distinctFrom]⟩
  | cons r rs ih =>
    intro acc
    have key : distinctFrom acc (r :: rs) = distinctFrom (addDistinct acc r) rs := rfl
    obtain ⟨w, hw⟩ := ih (addDistinct acc r)
    by_cases h : r ∈ acc
    · have ha : addDistinct acc r = acc := by unfold addDistinct; rw [if_pos h]
      exact ⟨w, by rw [key, hw, ha]⟩
    · have ha : addDistinct acc r = acc ++ [r] := by unfold addDistinct; rw [if_neg h]
      exact ⟨[r] ++ w, by rw [key, hw, ha, List.append_assoc]⟩

theorem distinctFrom_length_le (rs acc : List Cell) :
    acc.length ≤ (distinctFrom acc rs).length := by
  obtain ⟨w, hw⟩ := distinctFrom_suffix rs acc
  rw [hw]
  simp

theorem firstPass_eq : ∀ (rs acc : List Cell), acc.length ≤ 6 →
    firstPass rs acc =
      if (distinctFrom acc rs).length ≤ 6 then some (distinctFrom acc rs) else none := by
  intro rs
  induction rs with
  | nil =>
    intro acc h
    simp [firstPass, distinctFrom, h]
  | cons r rs ih =>
    intro acc h
    simp only [firstPass]
    by_cases h7 : (addDistinct acc r).length > 6
    · rw [if_pos h7]
      have hlen := distinctFrom_length_le rs (addDistinct acc r)
      have hgt : ¬((distinctFrom acc (r :: rs)).length ≤ 6) := by
        show ¬((distinctFrom (addDistinct acc r) rs).length ≤ 6)
        omega
      rw [if_neg hgt]
    · rw [if_neg h7]
      rw [ih _ (by omega)]
      rfl

theorem firstPass_some (rows : List Cell) (h : (distinctVals rows).length ≤ 6) :
    firstPass rows [] = some (distinctVals rows) := by
  unfold distinctVals at h ⊢
  rw [firstPass_eq rows [] (by simp)]
  exact if_pos h

theorem firstPass_abandon (rows : List Cell) (h : 6 < (distinctVals rows).length) :
    firstPass rows [] = none := by
  unfold distinctVals at h
  rw [firstPass_eq rows [] (by simp)]
  exact if_neg (by omega)

/-- C5: when a field has more than 6 distinct values (nulls included), the
recode pass leaves every row unchanged (the scan is read-only and the rewrite
pass never runs), emits the diagnostic line, builds no dictionary, and prints
no dictionary entry for the field. -/
theorem C5_recode_abandon (fname : String) (rows : List Cell)
    (h : 6 < (distinctVals rows).length) :
    recodeFieldRun fname rows = (rows, none,
      [fname ++ " has more than 6 unique attributes. " ++ fname
        ++ " removed from list "]) := by
  unfold recodeFieldRun
  rw [firstPass_abandon rows h]

/-- A column with seven distinct values, null included. -/
def sevenRows : List Cell :=
  [Cell.str "a", Cell.str "b", Cell.str "c", Cell.str "d", Cell.str "e",
    Cell.str "f", Cell.null]

/-- C5 witness: the seven-distinct-value column is abandoned unchanged. -/
theorem C5_recode_abandon_witness :
    recodeFieldRun "Zone" sevenRows = (sevenRows, none,
      ["Zone has more than 6 unique attributes. Zone removed from list "]) :=
  C5_recode_abandon "Zone" sevenRows (by decide)

/-! ## The discarded reprojection (C1) -/

def bugTarget : Layer := ⟨"corals", 4326, "Point", [⟨"SITE", "String"⟩]⟩

def bugPoly : Layer := ⟨"reef", 3857, "Polygon", [⟨"NAME", "String"⟩]⟩

def bugEnv : Env := ⟨true, fun _ => false⟩

def bugParams : Params := ⟨[bugPoly], true, bugTarget, none, none⟩

/-- C1: on a polygon layer whose WKID (3857) differs from the target's
(4326), `arcpy.management.Project` does create the reprojected copy `reef_`
in the scratch workspace, but — because source line 242 discards
`change_spatial_reference`'s return value — the layer actually passed to
`SpatialJoin` is the unprojected `reef` copy, still in WKID 3857. -/
theorem C1_join_uses_unprojected_layer :
    bugPoly.wkid ≠ bugTarget.wkid
  ∧ (execute bugEnv bugParams).1.projectLog
      = [{ bugPoly with name := "reef_", wkid := 4326 }]
  ∧ (execute bugEnv bugParams).1.joinLog
      = [{ bugPoly with fields := [⟨"reefNAME", "String"⟩] }]
  ∧ ((execute bugEnv bugParams).1.joinLog.map Layer.wkid) = [3857]
  ∧ ((execute bugEnv bugParams).1.joinLog.map Layer.name) = ["reef"] := by
  refine ⟨by decide, by decide, by decide, by decide, by decide⟩

/-! ## Distinct values, first-seen indices and the dict model (towards C4) -/

theorem mem_addDistinct (acc : List Cell) (r x : Cell) :
    x ∈ addDistinct acc r ↔ x ∈ acc ∨ x = r := by
  unfold addDistinct
  by_cases h : r ∈ acc
  · rw [if_pos h]
    constructor
    · exact Or.inl
    · rintro (hx | rfl)
      · exact hx
      · exact h
  · rw [if_neg h]
    simp

theorem nodup_addDistinct (acc : List Cell) (r : Cell) (h : acc.Nodup) :
    (addDistinct acc r).Nodup := by
  unfold addDistinct
  by_cases hr : r ∈ acc
  · rw [if_pos hr]; exact h
  · rw [if_neg hr]
    simp [List.nodup_append, h, hr]

theorem mem_distinctFrom : ∀ (rs acc : List Cell) (x : Cell),
    x ∈ distinctFrom acc rs ↔ x ∈ acc ∨ x ∈ rs := by
  intro rs
  induction rs with
  | nil => intro acc x; simp [distinctFrom]
  | cons r rs ih =>
    intro acc x
    show x ∈ distinctFrom (addDistinct acc r) rs ↔ _
    rw [ih, mem_addDistinct]
    simp [or_assoc, List.mem_cons]

theorem nodup_distinctFrom : ∀ (rs acc : List Cell), acc.Nodup →
    (distinctFrom acc rs).Nodup := by
  intro rs
  induction rs with
  | nil => intro acc h; exact h
  | cons r rs ih =>
    intro acc h
    exact ih _ (nodup_addDistinct acc r h)

theorem distinctVals_nodup (rows : List Cell) : (distinctVals rows).Nodup :=
  nodup_distinctFrom rows [] List.nodup_nil

theorem mem_distinctVals (rows : List Cell) (x : Cell) :
    x ∈ distinctVals rows ↔ x ∈ rows := by
  unfold distinctVals
  rw [mem_distinctFrom]
  simp

theorem distinctFrom_append : ∀ (u acc v : List Cell),
    distinctFrom acc (u ++ v) = distinctFrom (distinctFrom acc u) v := by
  intro u
  induction u with
  | nil => intro acc v; rfl
  | cons r u ih =>
    intro acc v
    show distinctFrom (addDistinct acc r) (u ++ v) = _
    exact ih (addDistinct acc r) v

theorem distinctVals_snoc (seen : List Cell) (r : Cell) :
    distinctVals (seen ++ [r]) = addDistinct (distinctVals seen) r := by
  unfold distinctVals
  rw [distinctFrom_append]
  rfl

theorem nnOf_append (a b : List Cell) : nnOf (a ++ b) = nnOf a ++ nnOf b := by
  unfold nnOf
  simp

theorem mem_nnOf (l : List Cell) (x : Cell) : x ∈ nnOf l ↔ x ∈ l ∧ x ≠ Cell.null := by
  unfold nnOf
  rw [List.mem_filter]
  simp

theorem nnOf_nodup (l : List Cell) (h : l.Nodup) : (nnOf l).Nodup :=
  List.Nodup.filter _ h

/-! ### First-seen index -/

theorem idxOfC_append_left (c : Cell) : ∀ (l w : List Cell), c ∈ l →
    idxOfC c (l ++ w) = idxOfC c l := by
  intro l
  induction l with
  | nil => intro w h; cases h
  | cons x xs ih =>
    intro w h
    by_cases hx : x = c
    · simp [idxOfC, hx]
    · rcases List.mem_cons.mp h with rfl | h'
      · exact absurd rfl hx
      · simp [idxOfC, hx, ih w h']

theorem idxOfC_lt (c : Cell) : ∀ (l : List Cell), c ∈ l → idxOfC c l < l.length := by
  intro l
  induction l with
  | nil => intro h; cases h
  | cons x xs ih =>
    intro h
    by_cases hx : x = c
    · simp [idxOfC, hx]
    · rcases List.mem_cons.mp h with rfl | h'
      · exact absurd rfl hx
      · simp only [idxOfC, if_neg hx, List.length_cons]
        exact Nat.succ_lt_succ (ih h')

theorem idxOfC_append_self (c : Cell) : ∀ (l : List Cell), c ∉ l →
    idxOfC c (l ++ [c]) = l.length := by
  intro l
  induction l with
  | nil => intro _; simp [idxOfC]
  | cons x xs ih =>
    intro h
    have hx : ¬(x = c) := fun e => h (e ▸ List.mem_cons_self x xs)
    have h' : c ∉ xs := fun e => h (List.mem_cons_of_mem x e)
    simp [idxOfC, hx, ih h']

theorem idxOfC_inj (l : List Cell) (hl : l.Nodup) : ∀ (c₁ c₂ : Cell), c₁ ∈ l → c₂ ∈ l →
    idxOfC c₁ l = idxOfC c₂ l → c₁ = c₂ := by
  induction l with
  | nil => intro c₁ c₂ h; cases h
  | cons x xs ih =>
    intro c₁ c₂ h₁ h₂ he
    rw [List.nodup_cons] at hl
    by_cases e₁ : x = c₁ <;> by_cases e₂ : x = c₂
    · rw [← e₁, ← e₂]
    · rw [idxOfC, idxOfC, if_pos e₁, if_neg e₂] at he
      exact absurd he.symm (Nat.succ_ne_zero _)
    · rw [idxOfC, idxOfC, if_neg e₁, if_pos e₂] at he
      exact absurd he (Nat.succ_ne_zero _)
    · rw [idxOfC, idxOfC, if_neg e₁, if_neg e₂] at he
      rcases List.mem_cons.mp h₁ with rfl | h₁'
      · exact absurd rfl e₁
      · rcases List.mem_cons.mp h₂ with rfl | h₂'
        · exact absurd rfl e₂
        · exact ih hl.2 c₁ c₂ h₁' h₂' (Nat.succ_injective he)

theorem idxOfC_get (l : List Cell) (hl : l.Nodup) : ∀ (j : Nat) (hj : j < l.length),
    idxOfC (l.get ⟨j, hj⟩) l = j := by
  induction l with
  | nil => intro j hj; cases hj
  | cons x xs ih =>
    intro j hj
    rw [List.nodup_cons] at hl
    cases j with
    | zero => simp [idxOfC]
    | succ j =>
      have hmem : xs.get ⟨j, Nat.lt_of_succ_lt_succ hj⟩ ∈ xs :=
        List.get_mem xs j (Nat.lt_of_succ_lt_succ hj)
      have hx : ¬(x = xs.get ⟨j, Nat.lt_of_succ_lt_succ hj⟩) :=
        fun e => hl.1 (e ▸ hmem)
      show idxOfC (xs.get ⟨j, _⟩) (x :: xs) = j + 1
      rw [idxOfC, if_neg hx, ih hl.2 j (Nat.lt_of_succ_lt_succ hj)]

/-! ### Lookup and insertion on the modelled dict -/

theorem dLookup_modelMapOf (nns : List Cell) (x : Cell) : ∀ (D : List Cell),
    dLookup (modelMapOf D nns) x =
      if x ∈ D then some (cellDictCode nns x) else none := by
  intro D
  induction D with
  | nil => simp [modelMapOf, dLookup]
  | cons c D ih =>
    simp only [modelMapOf, List.map_cons] at ih ⊢
    rw [dLookup]
    by_cases hc : c = x
    · subst hc
      rw [if_pos rfl, if_pos (List.mem_cons_self c D)]
    · rw [if_neg hc, ih]
      by_cases hx : x ∈ D
      · rw [if_pos hx, if_pos (List.mem_cons_of_mem c hx)]
      · rw [if_neg hx, if_neg (by
          intro hm
          rcases List.mem_cons.mp hm with rfl | hm'
          · exact hc rfl
          · exact hx hm')]

theorem dInsert_append_of_notMem (nns : List Cell) (x : Cell) (v : Nat) :
    ∀ (D : List Cell), x ∉ D →
    dInsert (modelMapOf D nns) x v = modelMapOf D nns ++ [(x, v)] := by
  intro D
  induction D with
  | nil => intro _; rfl
  | cons c D ih =>
    intro h
    have hc : ¬(c = x) := fun e => h (e ▸ List.mem_cons_self c D)
    have h' : x ∉ D := fun e => h (List.mem_cons_of_mem c e)
    simp only [modelMapOf, List.map_cons] at ih ⊢
    rw [dInsert, if_neg hc, ih h']
    rfl

theorem dInsert_lookup_self : ∀ (m : List (Cell × Nat)) (c : Cell) (v : Nat),
    dLookup m c = some v → dInsert m c v = m := by
  intro m
  induction m with
  | nil => intro c v h; cases h
  | cons p rest ih =>
    intro c v h
    rcases p with ⟨k, w⟩
    rw [dLookup] at h
    by_cases hk : k = c
    · rw [if_pos hk] at h
      rw [dInsert, if_pos hk]
      injection h with h
      rw [h]
    · rw [if_neg hk] at h
      rw [dInsert, if_neg hk, ih c v h]

theorem modelMapOf_congr (D n₁ n₂ : List Cell)
    (h : ∀ c ∈ D, cellDictCode n₁ c = cellDictCode n₂ c) :
    modelMapOf D n₁ = modelMapOf D n₂ :=
  List.map_congr_left fun c hc => by rw [h c hc]

/-! ### Extending the scanned prefix by one row -/

theorem distinctVals_snoc_mem {seen : List Cell} {r : Cell}
    (h : r ∈ distinctVals seen) : distinctVals (seen ++ [r]) = distinctVals seen := by
  rw [distinctVals_snoc]
  unfold addDistinct
  rw [if_pos h]

theorem distinctVals_snoc_notMem {seen : List Cell} {r : Cell}
    (h : r ∉ distinctVals seen) :
    distinctVals (seen ++ [r]) = distinctVals seen ++ [r] := by
  rw [distinctVals_snoc]
  unfold addDistinct
  rw [if_neg h]

theorem nnDistinct_snoc_null (seen : List Cell) :
    nnDistinct (seen ++ [Cell.null]) = nnDistinct seen := by
  unfold nnDistinct
  rw [distinctVals_snoc]
  unfold addDistinct
  by_cases h : Cell.null ∈ distinctVals seen
  · rw [if_pos h]
  · rw [if_neg h, nnOf_append]
    simp [nnOf]

theorem nnDistinct_snoc_new {seen : List Cell} {r : Cell} (hr : r ≠ Cell.null)
    (h : r ∉ distinctVals seen) :
    nnDistinct (seen ++ [r]) = nnDistinct seen ++ [r] := by
  unfold nnDistinct
  rw [distinctVals_snoc_notMem h, nnOf_append]
  congr 1
  have hb : (r == Cell.null) = false := beq_eq_false_iff_ne.mpr hr
  simp [nnOf, List.filter, hb]

theorem mem_nnDistinct_of {seen : List Cell} {c : Cell}
    (h1 : c ∈ distinctVals seen) (h2 : c ≠ Cell.null) : c ∈ nnDistinct seen := by
  unfold nnDistinct
  exact (mem_nnOf _ _).mpr ⟨h1, h2⟩

theorem notMem_nnDistinct {seen : List Cell} {c : Cell}
    (h : c ∉ distinctVals seen) : c ∉ nnDistinct seen := by
  intro hc
  unfold nnDistinct at hc
  exact h ((mem_nnOf _ _).mp hc).1

theorem nnDistinct_prefix (seen rest : List Cell) :
    ∃ w, nnDistinct (seen ++ rest) = nnDistinct seen ++ w := by
  unfold nnDistinct distinctVals
  rw [distinctFrom_append]
  obtain ⟨w0, hw0⟩ := distinctFrom_suffix rest (distinctFrom [] seen)
  rw [hw0, nnOf_append]
  exact ⟨nnOf w0, rfl⟩

theorem idxOfC_stable (c : Cell) (seen rest : List Cell) (h : c ∈ nnDistinct seen) :
    idxOfC c (nnDistinct (seen ++ rest)) = idxOfC c (nnDistinct seen) := by
  obtain ⟨w, hw⟩ := nnDistinct_prefix seen rest
  rw [hw, idxOfC_append_left c _ w h]

/-! ### The rewrite pass computes exactly the first-seen codes -/

theorem secondPass_cons_nonnull (r : Cell) (hr : r ≠ Cell.null) (rs : List Cell)
    (m : List (Cell × Nat)) (i : Nat) :
    secondPass (r :: rs) m i =
      match dLookup m r with
      | none => (Cell.int i :: (secondPass rs (dInsert m r i) (i + 1)).1,
          (secondPass rs (dInsert m r i) (i + 1)).2)
      | some v => (Cell.int v :: (secondPass rs m i).1, (secondPass rs m i).2) := by
  cases r with
  | null => exact absurd rfl hr
  | str s => rfl
  | int n => rfl

theorem secondPass_spec : ∀ (rs seen : List Cell),
    secondPass rs (modelMap seen) ((nnDistinct seen).length + 1)
      = (rs.map (codeOfCell (seen ++ rs)), modelMap (seen ++ rs)) := by
  intro rs
  induction rs with
  | nil =>
    intro seen
    simp [secondPass]
  | cons r rs ih =>
    intro seen
    have hsplit : seen ++ r :: rs = (seen ++ [r]) ++ rs := by simp
    by_cases hr : r = Cell.null
    · subst hr
      have step : secondPass (Cell.null :: rs) (modelMap seen) ((nnDistinct seen).length + 1)
          = (Cell.str "0" ::
              (secondPass rs (dInsert (modelMap seen) Cell.null 0)
                ((nnDistinct seen).length + 1)).1,
             (secondPass rs (dInsert (modelMap seen) Cell.null 0)
                ((nnDistinct seen).length + 1)).2) := rfl
      rw [step]
      have hmm : dInsert (modelMap seen) Cell.null 0 = modelMap (seen ++ [Cell.null]) := by
        by_cases h : Cell.null ∈ distinctVals seen
        · have hlook : dLookup (modelMap seen) Cell.null = some 0 := by
            unfold modelMap
            rw [dLookup_modelMapOf, if_pos h]
            simp [cellDictCode]
          rw [dInsert_lookup_self _ _ _ hlook]
          unfold modelMap
          rw [distinctVals_snoc_mem h, nnDistinct_snoc_null]
        · unfold modelMap
          rw [dInsert_append_of_notMem _ _ _ _ h, distinctVals_snoc_notMem h,
            nnDistinct_snoc_null]
          unfold modelMapOf
          rw [List.map_append]
          simp [cellDictCode]
      have hlen : (nnDistinct seen).length = (nnDistinct (seen ++ [Cell.null])).length := by
        rw [nnDistinct_snoc_null]
      rw [hmm, hlen, ih (seen ++ [Cell.null]), ← hsplit, List.map_cons]
      rfl
    · rw [secondPass_cons_nonnull r hr]
      cases hl : dLookup (modelMap seen) r with
      | some v =>
        have hlook := hl
        unfold modelMap at hlook
        rw [dLookup_modelMapOf] at hlook
        by_cases hmem : r ∈ distinctVals seen
        · rw [if_pos hmem] at hlook
          injection hlook with hv
          have hD : distinctVals (seen ++ [r]) = distinctVals seen := distinctVals_snoc_mem hmem
          have hnn : nnDistinct (seen ++ [r]) = nnDistinct seen := by
            unfold nnDistinct
            rw [hD]
          have hM : modelMap (seen ++ [r]) = modelMap seen := by
            unfold modelMap
            rw [hD, hnn]
          have ih' := ih (seen ++ [r])
          rw [hM, hnn] at ih'
          rw [ih', ← hsplit, List.map_cons]
          have hrnn : r ∈ nnDistinct (seen ++ [r]) := by
            rw [hnn]
            exact mem_nnDistinct_of hmem hr
          have hcode : codeOfCell (seen ++ r :: rs) r = Cell.int v := by
            unfold codeOfCell
            rw [if_neg hr, hsplit, idxOfC_stable r (seen ++ [r]) rs hrnn, hnn, ← hv]
            unfold cellDictCode
            rw [if_neg hr]
          rw [hcode]
        · rw [if_neg hmem] at hlook
          cases hlook
      | none =>
        have hlook := hl
        unfold modelMap at hlook
        rw [dLookup_modelMapOf] at hlook
        by_cases hmem : r ∈ distinctVals seen
        · rw [if_pos hmem] at hlook
          cases hlook
        · have hrnn : r ∉ nnDistinct seen := notMem_nnDistinct hmem
          have hD : distinctVals (seen ++ [r]) = distinctVals seen ++ [r] :=
            distinctVals_snoc_notMem hmem
          have hnn : nnDistinct (seen ++ [r]) = nnDistinct seen ++ [r] :=
            nnDistinct_snoc_new hr hmem
          have hidx : idxOfC r (nnDistinct seen ++ [r]) = (nnDistinct seen).length :=
            idxOfC_append_self r _ hrnn
          have hM : dInsert (modelMap seen) r ((nnDistinct seen).length + 1)
              = modelMap (seen ++ [r]) := by
            unfold modelMap
            rw [dInsert_append_of_notMem _ _ _ _ hmem, hD, hnn]
            unfold modelMapOf
            rw [List.map_append]
            congr 1
            · apply List.map_congr_left
              intro c hc
              unfold cellDictCode
              by_cases hcn : c = Cell.null
              · rw [if_pos hcn, if_pos hcn]
              · rw [if_neg hcn, if_neg hcn,
                  idxOfC_append_left c _ [r] (mem_nnDistinct_of hc hcn)]
            · simp [cellDictCode, hr, hidx]
          have hlen : (nnDistinct (seen ++ [r])).length = (nnDistinct seen).length + 1 := by
            rw [hnn]
            simp
          rw [hM, show (nnDistinct seen).length + 1 + 1
              = (nnDistinct (seen ++ [r])).length + 1 from by rw [hlen]]
          rw [ih (seen ++ [r]), ← hsplit, List.map_cons]
          have hrmem' : r ∈ nnDistinct (seen ++ [r]) := by
            rw [hnn]
            exact List.mem_append_right _ (List.mem_singleton.mpr rfl)
          have hcode : codeOfCell (seen ++ r :: rs) r
              = Cell.int ((nnDistinct seen).length + 1) := by
            unfold codeOfCell
            rw [if_neg hr, hsplit, idxOfC_stable r (seen ++ [r]) rs hrmem', hnn, hidx]
          rw [hcode]

theorem secondPass_from_start (rows : List Cell) :
    secondPass rows [] 1 = (rows.map (codeOfCell rows), modelMap rows) := by
  have h := secondPass_spec rows []
  have h0 : modelMap ([] : List Cell) = [] := rfl
  have h1 : (nnDistinct ([] : List Cell)).length + 1 = 1 := rfl
  rw [h0, h1] at h
  simpa using h

theorem cellDictCode_inj_on (rows : List Cell) :
    ∀ c₁ ∈ distinctVals rows, ∀ c₂ ∈ distinctVals rows,
      cellDictCode (nnDistinct rows) c₁ = cellDictCode (nnDistinct rows) c₂ → c₁ = c₂ := by
  intro c₁ h₁ c₂ h₂ he
  unfold cellDictCode at he
  by_cases e₁ : c₁ = Cell.null <;> by_cases e₂ : c₂ = Cell.null
  · rw [e₁, e₂]
  · rw [if_pos e₁, if_neg e₂] at he
    exact absurd he.symm (Nat.succ_ne_zero _)
  · rw [if_neg e₁, if_pos e₂] at he
    exact absurd he (Nat.succ_ne_zero _)
  · rw [if_neg e₁, if_neg e₂] at he
    exact idxOfC_inj (nnDistinct rows)
      (nnOf_nodup _ (distinctVals_nodup rows)) c₁ c₂
      (mem_nnDistinct_of h₁ e₁) (mem_nnDistinct_of h₂ e₂) (Nat.succ_injective he)

/-- C4: on a column with at most 6 distinct values (nulls included) the
recode pass rewrites every row to its assigned code — the literal string
`"0"` for null rows, the integer first-seen code (starting at 1) for non-null
rows — builds the dict mapping null to 0 and each distinct non-null value to
its first-seen code, emits the full value-to-code mapping in the log, and that
dict is a bijection from the distinct values onto `{0, 1, ..., k}` (`k` the
number of distinct non-null values). -/
theorem C4_recode_bijection (rows : List Cell)
    (h6 : (distinctVals rows).length ≤ 6) (hn : Cell.null ∈ rows) :
    (recodeField rows).1 = rows.map (codeOfCell rows)
  ∧ (recodeField rows).2 = some (modelMap rows)
  ∧ dLookup (modelMap rows) Cell.null = some 0
  ∧ (∀ c ∈ rows, c ≠ Cell.null →
      dLookup (modelMap rows) c = some (idxOfC c (nnDistinct rows) + 1))
  ∧ ((modelMap rows).map Prod.fst) = distinctVals rows
  ∧ ((modelMap rows).map Prod.snd).Nodup
  ∧ (∀ v : Nat, v ∈ (modelMap rows).map Prod.snd ↔ v ≤ (nnDistinct rows).length)
  ∧ (∀ fname, (recodeFieldRun fname rows).2.2 =
      [fname] ++ (modelMap rows).map
        (fun p => "     " ++ cellText p.1 ++ ":" ++ toString p.2)
        ++ ["---------------"]) := by
  have hrun : ∀ fname, recodeFieldRun fname rows =
      (rows.map (codeOfCell rows), some (modelMap rows),
        [fname] ++ (modelMap rows).map
          (fun p => "     " ++ cellText p.1 ++ ":" ++ toString p.2)
          ++ ["---------------"]) := by
    intro fname
    unfold recodeFieldRun
    rw [firstPass_some rows h6, secondPass_from_start rows]
  have hsnd : (modelMap rows).map Prod.snd
      = (distinctVals rows).map (cellDictCode (nnDistinct rows)) := by
    unfold modelMap modelMapOf
    rw [List.map_map]
    rfl
  refine ⟨?_, ?_, ?_, ?_, ?_, ?_, ?_, ?_⟩
  · unfold recodeField
    rw [hrun ""]
  · unfold recodeField
    rw [hrun ""]
  · unfold modelMap
    rw [dLookup_modelMapOf, if_pos ((mem_distinctVals rows Cell.null).mpr hn)]
    simp [cellDictCode]
  · intro c hc hcn
    unfold modelMap
    rw [dLookup_modelMapOf, if_pos ((mem_distinctVals rows c).mpr hc)]
    unfold cellDictCode
    rw [if_neg hcn]
  · unfold modelMap modelMapOf
    rw [List.map_map]
    show (distinctVals rows).map (fun c => c) = distinctVals rows
    simp
  · rw [hsnd]
    exact List.Nodup.map_on (cellDictCode_inj_on rows) (distinctVals_nodup rows)
  · intro v
    rw [hsnd]
    constructor
    · intro hv
      obtain ⟨c, hc, rfl⟩ := List.mem_map.mp hv
      unfold cellDictCode
      by_cases hcn : c = Cell.null
      · rw [if_pos hcn]
        exact Nat.zero_le _
      · rw [if_neg hcn]
        exact idxOfC_lt c _ (mem_nnDistinct_of hc hcn)
    · intro hv
      cases v with
      | zero =>
        refine List.mem_map.mpr ⟨Cell.null, (mem_distinctVals rows Cell.null).mpr hn, ?_⟩
        simp [cellDictCode]
      | succ j =>
        have hj : j < (nnDistinct rows).length := hv
        refine List.mem_map.mpr ⟨(nnDistinct rows).get ⟨j, hj⟩, ?_, ?_⟩
        · have hmem := List.get_mem (nnDistinct rows) j hj
          unfold nnDistinct at hmem
          exact ((mem_nnOf _ _).mp hmem).1
        · have hmem := List.get_mem (nnDistinct rows) j hj
          have hne : (nnDistinct rows).get ⟨j, hj⟩ ≠ Cell.null := by
            unfold nnDistinct at hmem
            exact ((mem_nnOf _ _).mp hmem).2
          unfold cellDictCode
          rw [if_neg hne,
            idxOfC_get (nnDistinct rows) (nnOf_nodup _ (distinctVals_nodup rows)) j hj]
  · intro fname
    rw [hrun fname]

/-- A demonstration column: two non-null values and a null. -/
def demoRows : List Cell :=
  [Cell.str "sand", Cell.null, Cell.str "rock", Cell.str "sand"]

/-- C4 witness: the demonstration column is rewritten to its codes and its
dict maps sand to 1, null to 0, rock to 2. -/
theorem C4_recode_bijection_witness :
    (recodeField demoRows).1 = [Cell.int 1, Cell.str "0", Cell.int 2, Cell.int 1]
  ∧ (recodeField demoRows).2
      = some [(Cell.str "sand", 1), (Cell.null, 0), (Cell.str "rock", 2)] := by
  have h := C4_recode_bijection demoRows (by decide) (by decide)
  refine ⟨?_, ?_⟩
  · rw [h.1]
    decide
  · rw [h.2.1]
    decide

/-! ## The join chain as a fold (C7) -/

/-- One layer after its per-iteration field processing: user deletions, then
renaming. -/
def processedLayer (del : Option String) (fc : Layer) : Layer :=
  { fc with
      fields := (change_join_field_names fc.name (delete_join_fields fc.fields del)).1 }

/-- The fields of a processed layer that a spatial join carries into its
output: the renamed surviving non-system fields. -/
def processedJoinFields (del : Option String) (fc : Layer) : List Field :=
  (processedLayer del fc).fields.filter (fun f => !(isSystemName f.name))

/-- The running target's schema as a pure fold over the layer list: each step
joins the processed layer and drops the bookkeeping fields. -/
def chainFields (del : Option String) (tgtFields : List Field) (fcs : List Layer) :
    List Field :=
  fcs.foldl (fun acc fc =>
    removeBookkeeping (spatialJoinFields acc (processedLayer del fc).fields)) tgtFields

theorem processFeature_noFail (env : Env) (henv : ∀ n, env.failsAt n = false)
    (isGdb : Bool) (coralWKID : Int) (del : Option String) (fc : Layer)
    (hfc : fc.shapeType = "Polygon") (st : St) :
    (processFeature env isGdb coralWKID del fc st).2 = none
  ∧ ((processFeature env isGdb coralWKID del fc st).1).target.fields
      = removeBookkeeping (spatialJoinFields st.target.fields (processedLayer del fc).fields)
  ∧ ((processFeature env isGdb coralWKID del fc st).1).output = st.output := by
  by_cases hw : coralWKID = fc.wkid
  · cases isGdb <;>
      simp [processFeature, hfc, runOp, henv, change_spatial_reference, hw,
        addScratch, updScratch, spatialJoinLayer, processedLayer]
  · cases isGdb <;>
      simp [processFeature, hfc, runOp, henv, change_spatial_reference, hw,
        addScratch, updScratch, spatialJoinLayer, processedLayer]

theorem loopFeatures_noFail (env : Env) (henv : ∀ n, env.failsAt n = false)
    (isGdb : Bool) (coralWKID : Int) (del : Option String) :
    ∀ (fcs : List Layer) (st : St), (∀ fc ∈ fcs, fc.shapeType = "Polygon") →
    (loopFeatures env isGdb coralWKID del fcs st).2 = none
  ∧ ((loopFeatures env isGdb coralWKID del fcs st).1).target.fields
      = chainFields del st.target.fields fcs
  ∧ ((loopFeatures env isGdb coralWKID del fcs st).1).output = st.output := by
  intro fcs
  induction fcs with
  | nil =>
    intro st _
    exact ⟨rfl, rfl, rfl⟩
  | cons fc fcs ih =>
    intro st h
    have hfc := h fc (List.mem_cons_self fc fcs)
    obtain ⟨h1, h2, h3⟩ := processFeature_noFail env henv isGdb coralWKID del fc hfc st
    rcases hp : processFeature env isGdb coralWKID del fc st with ⟨st', e⟩
    rw [hp] at h1 h2 h3
    simp only at h1 h2 h3
    subst h1
    have hstep : loopFeatures env isGdb coralWKID del (fc :: fcs) st
        = loopFeatures env isGdb coralWKID del fcs st' := by
      show (match processFeature env isGdb coralWKID del fc st with
            | (st', none) => loopFeatures env isGdb coralWKID del fcs st'
            | r => r) = _
      rw [hp]
    rw [hstep]
    obtain ⟨g1, g2, g3⟩ := ih st' (fun x hx => h x (List.mem_cons_of_mem fc hx))
    refine ⟨g1, ?_, by rw [g3, h3]⟩
    rw [g2, h2]
    rfl

theorem copyAll_noFail (env : Env) (henv : ∀ n, env.failsAt n = false) :
    ∀ (ls : List Layer) (st : St),
    (copyAll env ls st).2 = none
  ∧ (copyAll env ls st).1.scratch = st.scratch ++ ls
  ∧ (copyAll env ls st).1.target = st.target
  ∧ (copyAll env ls st).1.output = st.output := by
  intro ls
  induction ls with
  | nil =>
    intro st
    exact ⟨rfl, by simp [copyAll], rfl, rfl⟩
  | cons l ls ih =>
    intro st
    have hstep : copyAll env (l :: ls) st
        = copyAll env ls { addScratch st l with opCount := st.opCount + 1 } := by
      show (match runOp env st (fun s => addScratch s l) with
            | (st', none) => copyAll env ls st'
            | r => r) = _
      simp [runOp, henv]
    rw [hstep]
    obtain ⟨g1, g2, g3, g4⟩ := ih { addScratch st l with opCount := st.opCount + 1 }
    refine ⟨g1, ?_, g3, g4⟩
    rw [g2]
    simp [addScratch]

theorem recodePassOps_noFail (env : Env) (henv : ∀ n, env.failsAt n = false) :
    ∀ (fs : List String) (st : St),
    (recodePassOps env fs st).2 = none
  ∧ (recodePassOps env fs st).1.output = st.output := by
  intro fs
  induction fs with
  | nil =>
    intro st
    exact ⟨rfl, rfl⟩
  | cons f fs ih =>
    intro st
    have hstep : recodePassOps env (f :: fs) st
        = recodePassOps env fs { st with opCount := st.opCount + 1 } := by
      show (match runOp env st (fun s => s) with
            | (st', none) => recodePassOps env fs st'
            | r => r) = _
      simp [runOp, henv]
    rw [hstep]
    exact ih _

theorem executeBody_noFail (env : Env) (p : Params)
    (henv : ∀ n, env.failsAt n = false) (hext : env.extAvailable = true)
    (hne : p.workspaceLayers.filter (fun l => l.shapeType == "Polygon") ≠ []) :
    (executeBody env p).2 = none
  ∧ ((executeBody env p).1).output.map Layer.fields
      = some (chainFields p.fieldsToDelete p.coralsInput.fields
          (p.workspaceLayers.filter (fun l => l.shapeType == "Polygon"))) := by
  have hall : ∀ fc ∈ p.workspaceLayers.filter (fun l => l.shapeType == "Polygon"),
      fc.shapeType = "Polygon" := by
    intro fc hfc
    have := (List.mem_filter.mp hfc).2
    simpa using this
  have hlen : ¬((p.workspaceLayers.filter (fun l => l.shapeType == "Polygon")).length = 0) :=
    fun h0 => hne (List.length_eq_zero.mp h0)
  have hseq_ok : ∀ (s : St) (f : St → St × Option Exc), seqE (s, none) f = f s :=
    fun s f => rfl
  -- the common tail: from a state with the target and no output, through the
  -- loop, the output copy and the recode pass
  have tail : ∀ (b : Bool) (st : St), st.target = p.coralsInput → st.output = none →
      ∀ fcs : List Layer, (∀ fc ∈ fcs, fc.shapeType = "Polygon") →
      (seqE (loopFeatures env b p.coralsInput.wkid p.fieldsToDelete fcs st)
        (fun stl =>
          seqE (runOp env stl (fun s => { s with output := some s.target })) (fun sto =>
            if p.updateFields == some "Yes" then recodePassOps env sto.joinStrs sto
            else (sto, none)))).2 = none
    ∧ ((seqE (loopFeatures env b p.coralsInput.wkid p.fieldsToDelete fcs st)
        (fun stl =>
          seqE (runOp env stl (fun s => { s with output := some s.target })) (fun sto =>
            if p.updateFields == some "Yes" then recodePassOps env sto.joinStrs sto
            else (sto, none)))).1).output.map Layer.fields
        = some (chainFields p.fieldsToDelete p.coralsInput.fields fcs) := by
    intro b st hst hout fcs hfcs
    obtain ⟨l1, l2, _⟩ := loopFeatures_noFail env henv b
      p.coralsInput.wkid p.fieldsToDelete fcs st hfcs
    rcases hl : loopFeatures env b p.coralsInput.wkid p.fieldsToDelete fcs st
      with ⟨stl, e⟩
    rw [hl] at l1 l2
    simp only at l1 l2
    subst l1
    have hrun : runOp env stl (fun s => { s with output := some s.target })
        = ({ stl with output := some stl.target, opCount := stl.opCount + 1 }, none) := by
      simp [runOp, henv]
    rw [hseq_ok, hrun, hseq_ok]
    by_cases hupd : (p.updateFields == some "Yes") = true
    · simp only [hupd, if_true]
      obtain ⟨r1, r2⟩ := recodePassOps_noFail env henv
        ({ stl with output := some stl.target, opCount := stl.opCount + 1 }).joinStrs
        { stl with output := some stl.target, opCount := stl.opCount + 1 }
      refine ⟨r1, ?_⟩
      rw [r2]
      simp [l2, hst]
    · simp only [hupd, if_false]
      refine ⟨rfl, ?_⟩
      simp [l2, hst]
  unfold executeBody
  rw [hext]
  simp only [Bool.not_true, Bool.false_eq_true, if_false]
  rw [if_neg hlen]
  by_cases hgdb : p.workspaceIsGdb = true
  · simp only [hgdb, eq_self_iff_true, if_true, hseq_ok]
    exact tail true (initSt p) rfl rfl _ hall
  · have hg' : p.workspaceIsGdb = false := by
      simpa using hgdb
    simp only [hg', Bool.false_eq_true, if_false]
    obtain ⟨c1, c2, c3, c4⟩ := copyAll_noFail env henv
      (p.workspaceLayers.filter (fun l => l.shapeType == "Polygon")) (initSt p)
    rcases hc : copyAll env (p.workspaceLayers.filter (fun l => l.shapeType == "Polygon"))
      (initSt p) with ⟨stc, ec⟩
    rw [hc] at c1 c2 c3 c4
    simp only at c1 c2 c3 c4
    subst c1
    rw [hseq_ok]
    have hscr : stc.scratch = p.workspaceLayers.filter (fun l => l.shapeType == "Polygon") := by
      rw [c2]
      simp [initSt]
    have hfilt : stc.scratch.filter (fun l => l.shapeType == "Polygon")
        = p.workspaceLayers.filter (fun l => l.shapeType == "Polygon") := by
      rw [hscr]
      apply List.filter_eq_self.mpr
      intro a ha
      exact (List.mem_filter.mp ha).2
    rw [hfilt]
    exact tail false stc (by rw [c3]; rfl) (by rw [c4]; rfl) _ hall

theorem notBk_of_names (f : Field)
    (h : f.name ≠ "Join_Count" ∧ f.name ≠ "TARGET_FID") :
    (!(f.name == "Join_Count" || f.name == "TARGET_FID")) = true := by
  simp [h.1, h.2]

theorem removeBookkeeping_of (acc pjf : List Field)
    (hacc : ∀ f ∈ acc, f.name ≠ "Join_Count" ∧ f.name ≠ "TARGET_FID")
    (hp : ∀ f ∈ pjf, f.name ≠ "Join_Count" ∧ f.name ≠ "TARGET_FID") :
    removeBookkeeping (acc ++ pjf ++ [⟨"Join_Count", "Long"⟩, ⟨"TARGET_FID", "Long"⟩])
      = acc ++ pjf := by
  unfold removeBookkeeping
  rw [List.filter_append, List.filter_append,
    List.filter_eq_self.mpr (fun f hf => notBk_of_names f (hacc f hf)),
    List.filter_eq_self.mpr (fun f hf => notBk_of_names f (hp f hf))]
  have hbk : List.filter (fun f => !(f.name == "Join_Count" || f.name == "TARGET_FID"))
      [(⟨"Join_Count", "Long"⟩ : Field), ⟨"TARGET_FID", "Long"⟩] = [] := by decide
  rw [hbk, List.append_nil]

theorem chainFields_concat (del : Option String) :
    ∀ (fcs : List Layer) (acc : List Field),
    (∀ f ∈ acc, f.name ≠ "Join_Count" ∧ f.name ≠ "TARGET_FID") →
    (∀ fc ∈ fcs, ∀ f ∈ processedJoinFields del fc,
        f.name ≠ "Join_Count" ∧ f.name ≠ "TARGET_FID") →
    chainFields del acc fcs = acc ++ (fcs.map (processedJoinFields del)).flatten := by
  intro fcs
  induction fcs with
  | nil =>
    intro acc _ _
    simp [chainFields]
  | cons fc fcs ih =>
    intro acc hacc hfcs
    have hstep : chainFields del acc (fc :: fcs)
        = chainFields del
            (removeBookkeeping (spatialJoinFields acc (processedLayer del fc).fields)) fcs := rfl
    have hrb : removeBookkeeping (spatialJoinFields acc (processedLayer del fc).fields)
        = acc ++ processedJoinFields del fc := by
      unfold spatialJoinFields
      exact removeBookkeeping_of acc (processedJoinFields del fc) hacc
        (hfcs fc (List.mem_cons_self fc fcs))
    have hacc' : ∀ f ∈ acc ++ processedJoinFields del fc,
        f.name ≠ "Join_Count" ∧ f.name ≠ "TARGET_FID" := by
      intro f hf
      rcases List.mem_append.mp hf with hf | hf
      · exact hacc f hf
      · exact hfcs fc (List.mem_cons_self fc fcs) f hf
    rw [hstep, hrb, ih (acc ++ processedJoinFields del fc) hacc'
      (fun x hx => hfcs x (List.mem_cons_of_mem fc hx))]
    simp [List.append_assoc]

/-- C7: with no engine failure, the run is a fold over the listed polygon
layers — each iteration spatial-joins the processed layer onto the running
target and deletes the bookkeeping fields `Join_Count` and `TARGET_FID`, the
join output becoming the next running target — and the final running target,
whose schema is the original target's fields followed by every layer's
renamed surviving join fields, is copied to the output.  The bookkeeping
hypotheses rule out input fields that collide with the two bookkeeping
names. -/
theorem C7_join_chain_fold (env : Env) (p : Params)
    (henv : ∀ n, env.failsAt n = false) (hext : env.extAvailable = true)
    (hne : p.workspaceLayers.filter (fun l => l.shapeType == "Polygon") ≠ [])
    (hbk1 : ∀ f ∈ p.coralsInput.fields, f.name ≠ "Join_Count" ∧ f.name ≠ "TARGET_FID")
    (hbk2 : ∀ fc ∈ p.workspaceLayers.filter (fun l => l.shapeType == "Polygon"),
        ∀ f ∈ processedJoinFields p.fieldsToDelete fc,
          f.name ≠ "Join_Count" ∧ f.name ≠ "TARGET_FID") :
    (execute env p).2 = Outcome.ok
  ∧ ((execute env p).1).output.map Layer.fields
      = some (chainFields p.fieldsToDelete p.coralsInput.fields
          (p.workspaceLayers.filter (fun l => l.shapeType == "Polygon")))
  ∧ chainFields p.fieldsToDelete p.coralsInput.fields
        (p.workspaceLayers.filter (fun l => l.shapeType == "Polygon"))
      = p.coralsInput.fields
        ++ ((p.workspaceLayers.filter (fun l => l.shapeType == "Polygon")).map
              (processedJoinFields p.fieldsToDelete)).flatten := by
  obtain ⟨b1, b2⟩ := executeBody_noFail env p henv hext hne
  have hchain := chainFields_concat p.fieldsToDelete
    (p.workspaceLayers.filter (fun l => l.shapeType == "Polygon"))
    p.coralsInput.fields hbk1 hbk2
  unfold execute
  rcases hb : executeBody env p with ⟨st, e⟩
  rw [hb] at b1 b2
  simp only at b1 b2
  subst b1
  exact ⟨rfl, b2, hchain⟩

def c7Env : Env := ⟨true, fun _ => false⟩

def c7Target : Layer := ⟨"corals", 4326, "Point", [⟨"SITE", "String"⟩]⟩

def c7Reef : Layer := ⟨"reef", 4326, "Polygon", [⟨"OBJECTID", "OID"⟩, ⟨"NAME", "String"⟩]⟩

def c7Params : Params := ⟨[c7Reef], true, c7Target, none, none⟩

/-- C7 witness: one polygon layer joined onto a one-field target yields the
target field followed by the renamed join field. -/
theorem C7_join_chain_fold_witness :
    ((execute c7Env c7Params).1).output.map Layer.fields
      = some [⟨"SITE", "String"⟩, ⟨"reefNAME", "String"⟩] := by
  have h := C7_join_chain_fold c7Env c7Params (fun n => rfl) rfl (by decide)
    (by decide) (by decide)
  rw [h.2.1, h.2.2]
  decide

end BatchSpatialJoin
